import Mathlib

/-!
Verification development for the django-calendar-appointment service.

The timeline is modelled as `Int` minutes in the server's configured local
timezone, with minute 0 falling on a Monday at 00:00 local time.  The
service runs with one fixed server-wide zone (`TIME_ZONE` in settings), so
`timezone.localtime` is the identity on this timeline and an instant is
identified with its local wall-clock minute count.  Python's floor division
and floor modulo on integers correspond to `Int.ediv` / `Int.emod`.
-/

namespace Sched

/-- Minutes per day. -/
def minutesPerDay : Int := 1440

/-- `BUSINESS_START_HOUR` from `appointments_tasks.py`. -/
def BUSINESS_START_HOUR : Int := 9

/-- `BUSINESS_END_HOUR` from `appointments_tasks.py`. -/
def BUSINESS_END_HOUR : Int := 17

/-- `SLOT_INTERVAL = timedelta(minutes=30)`, in minutes. -/
def SLOT_INTERVAL : Int := 30

/-- Python `dt.date()` as a day index (days since the Monday epoch);
floor division matches Python's date truncation for aware datetimes. -/
def dateOf (t : Int) : Int := t / 1440

/-- Python `dt.weekday()`: Monday = 0 .. Sunday = 6. -/
def weekdayOf (t : Int) : Int := dateOf t % 7

/-- Python `dt.minute` of the local wall clock. -/
def minuteOf (t : Int) : Int := t % 60

/-- Python `dt.hour` of the local wall clock. -/
def hourOf (t : Int) : Int := (t % 1440) / 60

/-- Minutes past local midnight. -/
def timeOfDayOf (t : Int) : Int := t % 1440

/-- The error taxonomy of the spec (section 7), one constructor per
distinct failure the views surface. -/
inductive ApiError where
  | missingField
  | invalidEmail
  | reasonTooLong
  | malformedTimestamp
  | pastSlot
  | nonBusinessDay
  | misaligned
  | outsideHours
  | blankName
  | blankEmail
  | slotConflict
  | unsupportedField (keys : List String)
  | notFound
deriving DecidableEq, Repr

/-- HTTP status the views attach to each error. -/
def ApiError.status : ApiError → Nat
  | .slotConflict => 409
  | .notFound => 404
  | _ => 400

/-- `validate_slot` from `appointments_tasks.py`: the five guard clauses in
source order; `none` means the slot is accepted.  `now` is the instant
`timezone.now()` returns during the call. -/
def validate_slot (now slot : Int) : Option ApiError :=
  if slot < now then some .pastSlot
  else if ¬(0 ≤ weekdayOf slot ∧ weekdayOf slot < 5) then some .nonBusinessDay
  else if ¬(minuteOf slot = 0 ∨ minuteOf slot = 30) then some .misaligned
  else if hourOf slot < BUSINESS_START_HOUR then some .outsideHours
  else if BUSINESS_END_HOUR < hourOf slot then some .outsideHours
  else if hourOf slot = BUSINESS_END_HOUR ∧ minuteOf slot ≠ 0 then some .outsideHours
  else none

/-- `get_current_week_range` from `appointments_tasks.py`: Monday of the
current local week at 09:00, and the following Saturday at 00:00. -/
def get_current_week_range (now : Int) : Int × Int :=
  let week_start_date := dateOf now - weekdayOf now
  let week_start := week_start_date * 1440 + BUSINESS_START_HOUR * 60
  let week_end_date := week_start_date + 5
  let week_end := week_end_date * 1440
  (week_start, week_end)

/-- `get_week_range` from `appointments_tasks.py`: shift the current week
start by whole weeks and recompute the end from the shifted start's date. -/
def get_week_range (now : Int) (offset_weeks : Int) : Int × Int :=
  let cur := get_current_week_range now
  if offset_weeks = 0 then cur
  else
    let week_start := cur.1 + offset_weeks * 7 * 1440
    let week_end_date := dateOf week_start + 5
    (week_start, week_end_date * 1440)

/-- The `while current_slot <= closing_slot` loop inside
`generate_business_slots`: emit `current` and advance by `SLOT_INTERVAL`
(30 minutes) until past `closing`. -/
def slotLoop (current closing : Int) : List Int :=
  if h : current ≤ closing then current :: slotLoop (current + 30) closing
  else []
termination_by (closing + 30 - current).toNat
decreasing_by omega

/-- `generate_business_slots` from `appointments_tasks.py`: for weekday
offsets 0..4 from `week_start`'s date, the 30-minute slots from 09:00 to
17:00 inclusive. -/
def generate_business_slots (week_start : Int) : List Int :=
  (List.range 5).flatMap (fun weekday =>
    slotLoop ((dateOf week_start + (weekday : Int)) * 1440 + BUSINESS_START_HOUR * 60)
      ((dateOf week_start + (weekday : Int)) * 1440 + BUSINESS_END_HOUR * 60))

/-- Abstraction of what Django's `parse_datetime` (library code) extracts
from an ISO-8601 string: the wall-clock minutes written in the text, and
the UTC offset in minutes when the text carries one. -/
structure Stamp where
  wall : Int
  utcOffset : Option Int
deriving DecidableEq, Repr

/-- Abstraction of a request's timestamp string: whether the string is
empty (Python falsiness of `start_time_raw` in the POST handler), and what
`parse_datetime` returns on it (`none` = unparseable; in particular the
empty string and whitespace-only strings parse to `none`). -/
structure TsText where
  isEmpty : Bool
  parsed : Option Stamp
deriving DecidableEq, Repr

/-- Django `parse_datetime`, abstracted: the parse result carried by the
text. -/
def parse_datetime (value : TsText) : Option Stamp := value.parsed

/-- `parse_start_time` from `appointments_tasks.py`, with `tz` the server
zone's UTC offset in minutes: unparseable input is MalformedTimestamp; a
naive value is made aware in the server zone; an aware value is converted
to the local-minutes timeline (wall − offset is UTC, plus `tz` is local). -/
def parse_start_time (tz : Int) (value : TsText) : Except ApiError Int :=
  match parse_datetime value with
  | none => .error .malformedTimestamp
  | some parsed =>
    match parsed.utcOffset with
    | some o => .ok (parsed.wall - o + tz)
    | none => .ok parsed.wall

/-- `timezone.localtime(t).isoformat()`: the local wall clock of `t`
(the identity on the local-minutes timeline) rendered with the server
zone's offset attached; never the empty string. -/
def isoformat_local (tz : Int) (t : Int) : TsText :=
  ⟨false, some ⟨t, some tz⟩⟩

/-- Python `str.strip()`: drop whitespace from both ends. -/
def strip (s : String) : String :=
  ⟨((s.data.dropWhile Char.isWhitespace).reverse.dropWhile
      Char.isWhitespace).reverse⟩

/-- Modelled Django `validate_email` (library code): one `@` separating a
nonempty local part from a nonempty domain.  The claims depend only on
which calls pass or fail, not on the precise accepted language. -/
def validate_email (s : String) : Bool :=
  match s.data.splitOn '@' with
  | [l, d] => !l.isEmpty && !d.isEmpty
  | _ => false

/-- The `Appointment` model from `models/appointment.py`: one row of the
booking store.  `id` is the primary key the store assigns on creation. -/
structure Appointment where
  id : Nat
  start_time : Int
  name : String
  email : String
  phone : String
  reason : String
  created_at : Int
deriving DecidableEq, Repr

/-- The dict built by `serialize_appointment` in `appointments_tasks.py`;
`phone or ""` and `reason or ""` are the identity on strings since the
model stores `""` for blank fields. -/
structure SerializedAppointment where
  id : Nat
  start_time : TsText
  name : String
  email : String
  phone : String
  reason : String
  created_at : TsText
deriving DecidableEq, Repr

/-- `serialize_appointment` from `appointments_tasks.py`. -/
def serialize_appointment (tz : Int) (a : Appointment) : SerializedAppointment :=
  { id := a.id
    start_time := isoformat_local tz a.start_time
    name := a.name
    email := a.email
    phone := a.phone
    reason := a.reason
    created_at := isoformat_local tz a.created_at }

/-- The body of a POST /appointments request: each recognized key is
`none` when absent (or JSON null). -/
structure CreatePayload where
  start_time : Option TsText
  name : Option String
  email : Option String
  phone : Option String
  reason : Option String
deriving DecidableEq, Repr

/-- Python falsiness of `payload.get("start_time")`: absent, null, or the
empty string. -/
def falsyTs : Option TsText → Bool
  | none => true
  | some t => t.isEmpty

/-- The outcome a view returns: 201 with a body, 200 with a body, 204, or
an error with the status `ApiError.status` assigns. -/
inductive Resp where
  | created (a : SerializedAppointment)
  | updated (a : SerializedAppointment)
  | deleted
  | failure (e : ApiError)
deriving DecidableEq, Repr

/-- `AppointmentCollectionView.post` from `views/api.py`.  `st` is the
stored table, `newId` the primary key the store would assign, `createdAt`
the `auto_now_add` instant.  `Appointment.objects.create` raising
`IntegrityError` exactly when a row with the same `start_time` exists
models the database unique constraint on `start_time`. -/
def AppointmentCollectionView.post (tz now : Int) (st : List Appointment)
    (newId : Nat) (createdAt : Int) (p : CreatePayload) :
    List Appointment × Resp :=
  let start_time_raw := p.start_time
  let name := strip (p.name.getD "")
  let email := strip (p.email.getD "")
  let phone := strip (p.phone.getD "")
  let reason := strip (p.reason.getD "")
  if falsyTs start_time_raw || name.isEmpty || email.isEmpty then
    (st, .failure .missingField)
  else if !validate_email email then
    (st, .failure .invalidEmail)
  else if 200 < reason.length then
    (st, .failure .reasonTooLong)
  else
    match parse_start_time tz (start_time_raw.getD ⟨true, none⟩) with
    | .error e => (st, .failure e)
    | .ok start_time =>
      match validate_slot now start_time with
      | some e => (st, .failure e)
      | none =>
        if st.any (fun a => a.start_time == start_time) then
          (st, .failure .slotConflict)
        else
          let appointment : Appointment :=
            ⟨newId, start_time, name, email, phone, reason, createdAt⟩
          (st ++ [appointment], .created (serialize_appointment tz appointment))

/-- The body of a PATCH request: the five recognized keys plus the keys of
the payload outside the allowed set (`set(payload.keys()) - allowed_fields`
in the source). -/
structure PatchPayload where
  start_time : Option TsText
  name : Option String
  email : Option String
  phone : Option String
  reason : Option String
  unknownKeys : List String
deriving DecidableEq, Repr

/-- `sorted(unknown_keys)` from the unsupported-fields error message. -/
def sortKeys (ks : List String) : List String :=
  ks.mergeSort (fun a b => decide (a ≤ b))

/-- The `start_time` branch of `AppointmentDetailView.patch`: parse,
validate, then conflict-check against every other row
(`exclude(pk=appointment.pk)`). -/
def patchStart (tz now : Int) (st : List Appointment) (appointment : Appointment)
    (v : Option TsText) : Except ApiError Appointment :=
  match v with
  | none => .ok appointment
  | some raw =>
    match parse_start_time tz raw with
    | .error e => .error e
    | .ok parsed_time =>
      match validate_slot now parsed_time with
      | some e => .error e
      | none =>
        if st.any (fun a => a.start_time == parsed_time && a.id != appointment.id) then
          .error .slotConflict
        else .ok { appointment with start_time := parsed_time }

/-- The `name` branch of `patch`: blank after strip is rejected. -/
def patchName (a : Appointment) (v : Option String) : Except ApiError Appointment :=
  match v with
  | none => .ok a
  | some n =>
    let n := strip n
    if n.isEmpty then .error .blankName else .ok { a with name := n }

/-- The `email` branch of `patch`: blank after strip, then syntax. -/
def patchEmail (a : Appointment) (v : Option String) : Except ApiError Appointment :=
  match v with
  | none => .ok a
  | some m =>
    let m := strip m
    if m.isEmpty then .error .blankEmail
    else if !validate_email m then .error .invalidEmail
    else .ok { a with email := m }

/-- The `phone` branch of `patch`: stripped and stored verbatim. -/
def patchPhone (a : Appointment) (v : Option String) : Appointment :=
  match v with
  | none => a
  | some ph => { a with phone := strip ph }

/-- The `reason` branch of `patch`: stripped, length-checked. -/
def patchReason (a : Appointment) (v : Option String) : Except ApiError Appointment :=
  match v with
  | none => .ok a
  | some r =>
    let r := strip r
    if 200 < r.length then .error .reasonTooLong else .ok { a with reason := r }

/-- The field-processing sequence of `patch`, in source order: start_time,
name, email, phone, reason.  Failures abort before the single `save`. -/
def applyPatch (tz now : Int) (st : List Appointment) (a0 : Appointment)
    (p : PatchPayload) : Except ApiError Appointment := do
  let a ← patchStart tz now st a0 p.start_time
  let a ← patchName a p.name
  let a ← patchEmail a p.email
  let a := patchPhone a p.phone
  patchReason a p.reason

/-- `AppointmentDetailView.get_object`: fetch by primary key. -/
def AppointmentDetailView.get_object (st : List Appointment)
    (appointment_id : Nat) : Option Appointment :=
  st.find? (fun a => a.id == appointment_id)

/-- `AppointmentDetailView.patch` from `views/api.py`: 404 on a missing id,
400 on unknown keys, then the per-field checks; the in-memory updates are
persisted by one `save` only when every check passed. -/
def AppointmentDetailView.patch (tz now : Int) (st : List Appointment)
    (appointment_id : Nat) (p : PatchPayload) : List Appointment × Resp :=
  match AppointmentDetailView.get_object st appointment_id with
  | none => (st, .failure .notFound)
  | some appointment =>
    if !p.unknownKeys.isEmpty then
      (st, .failure (.unsupportedField (sortKeys p.unknownKeys)))
    else
      match applyPatch tz now st appointment p with
      | .error e => (st, .failure e)
      | .ok a =>
        (st.map (fun b => if b.id == appointment.id then a else b),
          .updated (serialize_appointment tz a))

/-- `AppointmentDetailView.delete` from `views/api.py`: 404 on a missing
id, otherwise hard-remove the row. -/
def AppointmentDetailView.delete (st : List Appointment)
    (appointment_id : Nat) : List Appointment × Resp :=
  match AppointmentDetailView.get_object st appointment_id with
  | none => (st, .failure .notFound)
  | some appointment =>
    (st.filter (fun b => b.id != appointment.id), .deleted)

/-- The `page` query parameter as the handlers see it: absent (defaulted to
the string "0"), a string `int()` rejects, or an integer value. -/
inductive PageParam where
  | missing
  | nonInt
  | intVal (n : Int)
deriving DecidableEq, Repr

/-- The shared `page` handling of both GET handlers: default 0, non-integer
falls back to 0, negative clamps to 0. -/
def parse_page : PageParam → Int
  | .missing => 0
  | .nonInt => 0
  | .intVal n => max n 0

/-- The JSON body of `AppointmentCollectionView.get`; the week bounds are
serialized as local calendar dates (`week_end` via `week_end - 1 second`,
which lands on the previous day since `week_end` is a midnight). -/
structure ListPayload where
  page : Int
  week_start_date : Int
  week_end_date : Int
  appointments : List SerializedAppointment
  count : Nat
  has_previous : Bool
  previous_page : Option Int
  next_page : Int
deriving DecidableEq, Repr

/-- `AppointmentCollectionView.get` from `views/api.py`. -/
def AppointmentCollectionView.get (tz now : Int) (st : List Appointment)
    (page_param : PageParam) : ListPayload :=
  let week_offset := parse_page page_param
  let wr := get_week_range now week_offset
  let rows := (st.filter
      (fun a => decide (wr.1 ≤ a.start_time) && decide (a.start_time < wr.2))).mergeSort
      (fun a b => decide (a.start_time ≤ b.start_time))
  let data := rows.map (serialize_appointment tz)
  { page := week_offset
    week_start_date := dateOf wr.1
    week_end_date := dateOf (wr.2 - 1)
    appointments := data
    count := data.length
    has_previous := decide (0 < week_offset)
    previous_page := if 0 < week_offset then some (week_offset - 1) else none
    next_page := week_offset + 1 }

/-- The JSON body of `AvailableSlotsView.get`. -/
structure AvailPayload where
  page : Int
  week_start_date : Int
  week_end_date : Int
  available_slots : List TsText
  count : Nat
  has_previous : Bool
  previous_page : Option Int
  next_page : Int
deriving DecidableEq, Repr

/-- `AvailableSlotsView.get` from `views/api.py`: the generated week slots
minus the booked start times of the week, minus — in the current week
only — the slots before now; serialized as local ISO strings. -/
def AvailableSlotsView.get (tz now : Int) (st : List Appointment)
    (page_param : PageParam) : AvailPayload :=
  let week_offset := parse_page page_param
  let wr := get_week_range now week_offset
  let week_slots := generate_business_slots wr.1
  let booked_slots := (st.filter
      (fun a => decide (wr.1 ≤ a.start_time) && decide (a.start_time < wr.2))).map
      (fun a => a.start_time)
  let is_current_week := week_offset == 0
  let available := week_slots.filter
      (fun slot => !(booked_slots.contains slot) &&
        !(is_current_week && decide (slot < now)))
  { page := week_offset
    week_start_date := dateOf wr.1
    week_end_date := dateOf (wr.2 - 1)
    available_slots := available.map (isoformat_local tz)
    count := available.length
    has_previous := decide (0 < week_offset)
    previous_page := if 0 < week_offset then some (week_offset - 1) else none
    next_page := week_offset + 1 }

/-- The core data-model invariant: `start_time` is unique across all live
appointments. -/
def uniqueStart (st : List Appointment) : Prop :=
  List.Pairwise (fun x y => x.start_time ≠ y.start_time) st

/-- Primary keys are unique — the store assigns them. -/
def uniqueIds (st : List Appointment) : Prop :=
  List.Pairwise (fun x y => x.id ≠ y.id) st

/-- The stored states reachable from the empty store through the three
mutating handlers, with the store assigning a fresh primary key on
create. -/
inductive Reachable : List Appointment → Prop where
  | empty : Reachable []
  | create (st : List Appointment) (tz now : Int) (newId : Nat)
      (createdAt : Int) (p : CreatePayload)
      (hfresh : ∀ a ∈ st, a.id ≠ newId) (h : Reachable st) :
      Reachable (AppointmentCollectionView.post tz now st newId createdAt p).1
  | update (st : List Appointment) (tz now : Int) (appointment_id : Nat)
      (p : PatchPayload) (h : Reachable st) :
      Reachable (AppointmentDetailView.patch tz now st appointment_id p).1
  | del (st : List Appointment) (appointment_id : Nat) (h : Reachable st) :
      Reachable (AppointmentDetailView.delete st appointment_id).1

end Sched

namespace Sched

theorem slotLoop_closed (c cl : Int) :
    slotLoop c cl =
      (List.range ((cl + 30 - c) / 30).toNat).map
        (fun i : Nat => c + 30 * (i : Int)) := by
  by_cases h : c ≤ cl
  · rw [slotLoop]
    simp only [h, dite_true]
    rw [slotLoop_closed (c + 30) cl]
    have hn : ((cl + 30 - c) / 30).toNat = ((cl + 30 - (c + 30)) / 30).toNat + 1 := by
      omega
    rw [hn, List.range_succ_eq_map, List.map_cons, List.map_map]
    congr 1
    · simp
    · apply List.map_congr_left
      intro i _
      simp only [Function.comp_apply]
      push_cast
      ring
  · rw [slotLoop]
    simp only [h, dite_false]
    have hn : ((cl + 30 - c) / 30).toNat = 0 := by omega
    rw [hn]
    simp
termination_by (cl + 30 - c).toNat
decreasing_by omega

theorem weekdayOf_bounds (t : Int) : 0 ≤ weekdayOf t ∧ weekdayOf t < 7 := by
  unfold weekdayOf dateOf
  omega

theorem generate_business_slots_closed (ws : Int) :
    generate_business_slots ws =
      (List.range 5).flatMap (fun wd =>
        (List.range 17).map
          (fun i : Nat => (dateOf ws + (wd : Int)) * 1440 + 540 + 30 * (i : Int))) := by
  unfold generate_business_slots BUSINESS_START_HOUR BUSINESS_END_HOUR
  refine congrArg _ (funext fun wd => ?_)
  rw [slotLoop_closed]
  have hc : (((dateOf ws + (wd : Int)) * 1440 + 17 * 60 + 30 -
      ((dateOf ws + (wd : Int)) * 1440 + 9 * 60)) / 30).toNat = 17 := by
    omega
  rw [hc]
  apply List.map_congr_left
  intro i _
  ring

theorem generate_business_slots_mem (ws : Int) (s : Int) :
    s ∈ generate_business_slots ws ↔
      ∃ wd : Nat, wd < 5 ∧ ∃ i : Nat, i < 17 ∧
        s = (dateOf ws + (wd : Int)) * 1440 + 540 + 30 * (i : Int) := by
  rw [generate_business_slots_closed]
  simp only [List.mem_flatMap, List.mem_map, List.mem_range]
  constructor
  · rintro ⟨wd, hwd, i, hi, rfl⟩
    exact ⟨wd, hwd, i, hi, rfl⟩
  · rintro ⟨wd, hwd, i, hi, rfl⟩
    exact ⟨wd, hwd, i, hi, rfl⟩

theorem generate_business_slots_sorted (ws : Int) :
    List.Pairwise (· < ·) (generate_business_slots ws) := by
  rw [generate_business_slots_closed, List.flatMap_def, List.pairwise_flatten]
  constructor
  · intro l hl
    rw [List.mem_map] at hl
    obtain ⟨wd, _, rfl⟩ := hl
    rw [List.pairwise_map]
    exact (List.pairwise_lt_range 17).imp (fun {a b} hab => by omega)
  · rw [List.pairwise_map]
    refine (List.pairwise_lt_range 5).imp (fun {a b} hab => ?_)
    intro x hx y hy
    rw [List.mem_map] at hx hy
    obtain ⟨i, hi, rfl⟩ := hx
    obtain ⟨j, hj, rfl⟩ := hy
    rw [List.mem_range] at hi hj
    omega

theorem generate_business_slots_length (ws : Int) :
    (generate_business_slots ws).length = 85 := by
  rw [generate_business_slots_closed]
  simp [List.length_flatMap, Function.comp_def, List.range_succ]

theorem parse_start_time_error_eq (tz : Int) (v : TsText) (e : ApiError)
    (h : parse_start_time tz v = .error e) : e = .malformedTimestamp := by
  rcases v with ⟨ie, _ | ⟨w, _ | o⟩⟩ <;>
    simp_all [parse_start_time, parse_datetime]

theorem validate_slot_error_cases (now t : Int) (e : ApiError)
    (h : validate_slot now t = some e) :
    e = .pastSlot ∨ e = .nonBusinessDay ∨ e = .misaligned ∨ e = .outsideHours := by
  unfold validate_slot at h
  split_ifs at h <;> simp_all

/-- C8: parsing the serialized local-ISO representation of an aware instant
`t` with `parse_start_time` yields an instant equal to `t`: the local
rendering keeps the zone offset, so the instant survives the round trip. -/
theorem parse_serialize_roundtrip (tz t : Int) :
    parse_start_time tz (isoformat_local tz t) = .ok t := by
  unfold parse_start_time isoformat_local parse_datetime
  have h : t - tz + tz = t := by ring
  simp [h]

/-- C9: on both list endpoints a missing or non-integer `page` yields week
offset 0, a negative integer clamps to 0, and the pagination metadata is
`page = offset`, `has_previous = (offset > 0)`, `previous_page = offset−1`
exactly when `offset > 0`, and `next_page = offset + 1` unconditionally. -/
theorem pagination_characterization (tz now : Int) (st : List Appointment)
    (pp : PageParam) :
    (parse_page .missing = 0 ∧ parse_page .nonInt = 0) ∧
    (∀ n : Int, n < 0 → parse_page (.intVal n) = 0) ∧
    (∀ n : Int, 0 ≤ n → parse_page (.intVal n) = n) ∧
    ((AppointmentCollectionView.get tz now st pp).page = parse_page pp ∧
      (AppointmentCollectionView.get tz now st pp).has_previous
        = decide (0 < parse_page pp) ∧
      (AppointmentCollectionView.get tz now st pp).previous_page
        = (if 0 < parse_page pp then some (parse_page pp - 1) else none) ∧
      (AppointmentCollectionView.get tz now st pp).next_page
        = parse_page pp + 1) ∧
    ((AvailableSlotsView.get tz now st pp).page = parse_page pp ∧
      (AvailableSlotsView.get tz now st pp).has_previous
        = decide (0 < parse_page pp) ∧
      (AvailableSlotsView.get tz now st pp).previous_page
        = (if 0 < parse_page pp then some (parse_page pp - 1) else none) ∧
      (AvailableSlotsView.get tz now st pp).next_page
        = parse_page pp + 1) := by
  refine ⟨⟨rfl, rfl⟩, fun n hn => ?_, fun n hn => ?_,
    ⟨rfl, rfl, rfl, rfl⟩, ⟨rfl, rfl, rfl, rfl⟩⟩ <;>
    simp [parse_page] <;> omega

/-- C9 witness: negative pages clamp to 0 and nonnegative pages pass
through on concrete inputs. -/
theorem pagination_witness :
    parse_page (.intVal (-3)) = 0 ∧ parse_page (.intVal 2) = 2 := by
  have h := pagination_characterization 0 0 [] .missing
  exact ⟨h.2.1 (-3) (by decide), h.2.2.1 2 (by decide)⟩

theorem post_cases (tz now : Int) (st : List Appointment) (newId : Nat)
    (createdAt : Int) (p : CreatePayload) :
    (∃ e, AppointmentCollectionView.post tz now st newId createdAt p
        = (st, .failure e)) ∨
    (∃ a, a.id = newId ∧ (∀ b ∈ st, b.start_time ≠ a.start_time) ∧
      AppointmentCollectionView.post tz now st newId createdAt p
        = (st ++ [a], .created (serialize_appointment tz a))) := by
  unfold AppointmentCollectionView.post
  dsimp only
  split_ifs with h1 h2 h3
  · exact .inl ⟨_, rfl⟩
  · exact .inl ⟨_, rfl⟩
  · exact .inl ⟨_, rfl⟩
  · cases hp : parse_start_time tz (p.start_time.getD ⟨true, none⟩) with
    | error e => exact .inl ⟨e, rfl⟩
    | ok t =>
      dsimp only
      cases hv : validate_slot now t with
      | some e => exact .inl ⟨e, rfl⟩
      | none =>
        split_ifs with h4
        · exact .inl ⟨_, rfl⟩
        · refine .inr ⟨_, rfl, ?_, rfl⟩
          intro b hb
          simp only [List.any_eq_true, beq_iff_eq, not_exists, not_and] at h4
          exact h4 b hb

theorem available_filter_eq (tz now : Int) (st : List Appointment)
    (pp : PageParam) :
    (AvailableSlotsView.get tz now st pp).available_slots =
      ((generate_business_slots (get_week_range now (parse_page pp)).1).filter
        (fun s => decide ((¬ ∃ a ∈ st,
            (get_week_range now (parse_page pp)).1 ≤ a.start_time ∧
            a.start_time < (get_week_range now (parse_page pp)).2 ∧
            a.start_time = s) ∧
          (parse_page pp = 0 → now ≤ s)))).map (isoformat_local tz) := by
  unfold AvailableSlotsView.get
  dsimp only
  congr 1
  apply List.filter_congr
  intro s hs
  rw [Bool.eq_iff_iff]
  simp only [Bool.and_eq_true, Bool.not_eq_true', decide_eq_true_eq,
    decide_eq_false_iff_not, Bool.and_eq_false_iff, beq_iff_eq]
  simp only [List.contains, Bool.eq_false_iff, ne_eq, List.elem_iff,
    List.mem_map, List.mem_filter, Bool.and_eq_true, decide_eq_true_eq,
    not_exists, not_lt, not_and, beq_eq_false_iff_ne, beq_iff_eq]
  constructor
  · rintro ⟨h1, h2⟩
    refine ⟨fun x hx hlo hhi => h1 x ⟨hx, hlo, hhi⟩, ?_⟩
    intro h0
    rcases h2 with h2 | h2
    · exact absurd h0 h2
    · exact h2
  · rintro ⟨h1, h2⟩
    refine ⟨fun x hx => h1 x hx.1 hx.2.1 hx.2.2, ?_⟩
    by_cases h0 : parse_page pp = 0
    · exact .inr (h2 h0)
    · exact .inl h0

/-- C4: for every week offset and stored set, the available slots are the
85 generated slots of the week minus those equal to a booked start_time in
[week_start, week_end), and — only when the offset is 0 — minus slots
strictly before now; for a positive offset no now-filtering applies; the
result serializes an ascending list of instants as local ISO strings; a
single booking occupying one of the week's slots at page 0 leaves at most
84. -/
theorem available_slots_characterization (tz now : Int)
    (st : List Appointment) (pp : PageParam) :
    ((AvailableSlotsView.get tz now st pp).available_slots =
      ((generate_business_slots (get_week_range now (parse_page pp)).1).filter
        (fun s => decide ((¬ ∃ a ∈ st,
            (get_week_range now (parse_page pp)).1 ≤ a.start_time ∧
            a.start_time < (get_week_range now (parse_page pp)).2 ∧
            a.start_time = s) ∧
          (parse_page pp = 0 → now ≤ s)))).map (isoformat_local tz)) ∧
    (parse_page pp ≠ 0 →
      (AvailableSlotsView.get tz now st pp).available_slots =
      ((generate_business_slots (get_week_range now (parse_page pp)).1).filter
        (fun s => decide (¬ ∃ a ∈ st,
            (get_week_range now (parse_page pp)).1 ≤ a.start_time ∧
            a.start_time < (get_week_range now (parse_page pp)).2 ∧
            a.start_time = s))).map (isoformat_local tz)) ∧
    (∃ l : List Int, List.Pairwise (· < ·) l ∧
      (AvailableSlotsView.get tz now st pp).available_slots =
        l.map (isoformat_local tz)) ∧
    (∀ a : Appointment, st = [a] → parse_page pp = 0 →
      a.start_time ∈
        generate_business_slots (get_week_range now (parse_page pp)).1 →
      (get_week_range now (parse_page pp)).1 ≤ a.start_time →
      a.start_time < (get_week_range now (parse_page pp)).2 →
      (AvailableSlotsView.get tz now st pp).count ≤ 84) := by
  refine ⟨available_filter_eq tz now st pp, ?_, ?_, ?_⟩
  · intro hoff
    rw [available_filter_eq]
    congr 1
    apply List.filter_congr
    intro s hs
    rw [decide_eq_decide]
    exact and_iff_left (fun h0 => absurd h0 hoff)
  · exact ⟨_, List.Pairwise.sublist (List.filter_sublist _)
      (generate_business_slots_sorted _), rfl⟩
  · intro a hst hoff hmem hlo hhi
    have h1 : (AvailableSlotsView.get tz now st pp).count
        = (AvailableSlotsView.get tz now st pp).available_slots.length := by
      unfold AvailableSlotsView.get
      dsimp only
      rw [List.length_map]
    rw [h1, available_filter_eq, List.length_map]
    have h85 := generate_business_slots_length
      (get_week_range now (parse_page pp)).1
    have key : ∀ (l : List Int) (p : Int → Bool) (x : Int), x ∈ l →
        p x = false → l.length = 85 → (l.filter p).length ≤ 84 := by
      intro l p x hx hpx hlen
      have hflt : (l.filter p).length < l.length :=
        List.length_filter_lt_length_iff_exists.mpr ⟨x, hx, by simp [hpx]⟩
      omega
    apply key _ _ a.start_time hmem ?_ h85
    rw [decide_eq_false_iff_not]
    rintro ⟨hne, _⟩
    exact hne ⟨a, by rw [hst]; exact List.mem_singleton.mpr rfl, hlo, hhi, rfl⟩

/-- C4 witness: with one booking at the Monday 09:00 slot of the current
week, page 0 offers at most 84 slots. -/
theorem available_slots_witness :
    (AvailableSlotsView.get 0 0 [⟨1, 540, "A", "a@x.com", "", "", 0⟩]
      (.intVal 0)).count ≤ 84 := by
  have h := available_slots_characterization 0 0
    [⟨1, 540, "A", "a@x.com", "", "", 0⟩] (.intVal 0)
  refine h.2.2.2 ⟨1, 540, "A", "a@x.com", "", "", 0⟩ rfl (by decide) ?_
    (by decide) (by decide)
  rw [generate_business_slots_mem]
  exact ⟨0, by omega, 0, by omega, by decide⟩

theorem patchStart_ok (tz now : Int) (st : List Appointment)
    (a0 : Appointment) (v : Option TsText) (a : Appointment)
    (h : patchStart tz now st a0 v = .ok a) :
    a.id = a0.id ∧ a.name = a0.name ∧ a.email = a0.email ∧
    a.phone = a0.phone ∧ a.reason = a0.reason ∧ a.created_at = a0.created_at ∧
    (v = none → a.start_time = a0.start_time) ∧
    (a.start_time = a0.start_time ∨
      ∀ b ∈ st, b.id ≠ a0.id → b.start_time ≠ a.start_time) ∧
    (∀ raw, v = some raw → parse_start_time tz raw = .ok a.start_time ∧
      validate_slot now a.start_time = none) := by
  cases v with
  | none =>
    simp only [patchStart, Except.ok.injEq] at h
    cases h
    simp
  | some raw =>
    simp only [patchStart] at h
    cases hp : parse_start_time tz raw with
    | error e => rw [hp] at h; simp at h
    | ok t =>
      rw [hp] at h
      dsimp only at h
      cases hv : validate_slot now t with
      | some e => rw [hv] at h; simp at h
      | none =>
        rw [hv] at h
        dsimp only at h
        split_ifs at h with hc
        cases h
        simp only [List.any_eq_true, Bool.and_eq_true, beq_iff_eq,
          bne_iff_ne, not_exists, not_and, ne_eq] at hc
        refine ⟨rfl, rfl, rfl, rfl, rfl, rfl, by simp, .inr ?_, ?_⟩
        · intro b hb hbid heq
          exact hc b hb heq hbid
        · intro raw' hraw'
          cases hraw'
          exact ⟨hp, hv⟩

theorem patchName_ok (a0 : Appointment) (v : Option String) (a : Appointment)
    (h : patchName a0 v = .ok a) :
    a.id = a0.id ∧ a.start_time = a0.start_time ∧ a.email = a0.email ∧
    a.phone = a0.phone ∧ a.reason = a0.reason ∧ a.created_at = a0.created_at ∧
    (v = none → a.name = a0.name) ∧
    (∀ n, v = some n → a.name = strip n) := by
  cases v with
  | none =>
    simp only [patchName, Except.ok.injEq] at h
    cases h
    simp
  | some n =>
    simp only [patchName] at h
    split_ifs at h with hb
    cases h
    refine ⟨rfl, rfl, rfl, rfl, rfl, rfl, by simp, ?_⟩
    intro n' hn'
    cases hn'
    rfl

theorem patchEmail_ok (a0 : Appointment) (v : Option String) (a : Appointment)
    (h : patchEmail a0 v = .ok a) :
    a.id = a0.id ∧ a.start_time = a0.start_time ∧ a.name = a0.name ∧
    a.phone = a0.phone ∧ a.reason = a0.reason ∧ a.created_at = a0.created_at ∧
    (v = none → a.email = a0.email) ∧
    (∀ m, v = some m → a.email = strip m) := by
  cases v with
  | none =>
    simp only [patchEmail, Except.ok.injEq] at h
    cases h
    simp
  | some m =>
    simp only [patchEmail] at h
    split_ifs at h with hb hv
    cases h
    refine ⟨rfl, rfl, rfl, rfl, rfl, rfl, by simp, ?_⟩
    intro m' hm'
    cases hm'
    rfl

theorem patchPhone_fields (a0 : Appointment) (v : Option String) :
    (patchPhone a0 v).id = a0.id ∧
    (patchPhone a0 v).start_time = a0.start_time ∧
    (patchPhone a0 v).name = a0.name ∧
    (patchPhone a0 v).email = a0.email ∧
    (patchPhone a0 v).reason = a0.reason ∧
    (patchPhone a0 v).created_at = a0.created_at ∧
    (v = none → (patchPhone a0 v).phone = a0.phone) ∧
    (∀ ph, v = some ph → (patchPhone a0 v).phone = strip ph) := by
  cases v with
  | none => simp [patchPhone]
  | some ph =>
    refine ⟨rfl, rfl, rfl, rfl, rfl, rfl, by simp, ?_⟩
    intro ph' hph'
    cases hph'
    rfl

theorem patchReason_ok (a0 : Appointment) (v : Option String) (a : Appointment)
    (h : patchReason a0 v = .ok a) :
    a.id = a0.id ∧ a.start_time = a0.start_time ∧ a.name = a0.name ∧
    a.email = a0.email ∧ a.phone = a0.phone ∧ a.created_at = a0.created_at ∧
    (v = none → a.reason = a0.reason) ∧
    (∀ r, v = some r → a.reason = strip r) := by
  cases v with
  | none =>
    simp only [patchReason, Except.ok.injEq] at h
    cases h
    simp
  | some r =>
    simp only [patchReason] at h
    split_ifs at h with hb
    cases h
    refine ⟨rfl, rfl, rfl, rfl, rfl, rfl, by simp, ?_⟩
    intro r' hr'
    cases hr'
    rfl

theorem applyPatch_ok (tz now : Int) (st : List Appointment)
    (a0 : Appointment) (p : PatchPayload) (a : Appointment)
    (h : applyPatch tz now st a0 p = .ok a) :
    a.id = a0.id ∧ a.created_at = a0.created_at ∧
    (p.start_time = none → a.start_time = a0.start_time) ∧
    (a.start_time = a0.start_time ∨
      ∀ b ∈ st, b.id ≠ a0.id → b.start_time ≠ a.start_time) ∧
    (p.name = none → a.name = a0.name) ∧
    (∀ n, p.name = some n → a.name = strip n) ∧
    (p.email = none → a.email = a0.email) ∧
    (∀ m, p.email = some m → a.email = strip m) ∧
    (p.phone = none → a.phone = a0.phone) ∧
    (∀ ph, p.phone = some ph → a.phone = strip ph) ∧
    (p.reason = none → a.reason = a0.reason) ∧
    (∀ r, p.reason = some r → a.reason = strip r) ∧
    (∀ raw, p.start_time = some raw →
      parse_start_time tz raw = .ok a.start_time ∧
      validate_slot now a.start_time = none) := by
  unfold applyPatch at h
  cases h1 : patchStart tz now st a0 p.start_time with
  | error e => rw [h1] at h; simp [Bind.bind, Except.bind] at h
  | ok a1 =>
    rw [h1] at h
    simp only [Bind.bind, Except.bind] at h
    cases h2 : patchName a1 p.name with
    | error e => rw [h2] at h; simp at h
    | ok a2 =>
      rw [h2] at h
      dsimp only at h
      cases h3 : patchEmail a2 p.email with
      | error e => rw [h3] at h; simp at h
      | ok a3 =>
        rw [h3] at h
        dsimp only at h
        obtain ⟨s_id, s_nm, s_em, s_ph, s_rs, s_ca, s_none, s_dis, s_some⟩ :=
          patchStart_ok tz now st a0 p.start_time a1 h1
        obtain ⟨n_id, n_st, n_em, n_ph, n_rs, n_ca, n_none, n_some⟩ :=
          patchName_ok a1 p.name a2 h2
        obtain ⟨e_id, e_st, e_nm, e_ph, e_rs, e_ca, e_none, e_some⟩ :=
          patchEmail_ok a2 p.email a3 h3
        obtain ⟨p_id, p_st, p_nm, p_em, p_rs, p_ca, p_none, p_some⟩ :=
          patchPhone_fields a3 p.phone
        obtain ⟨r_id, r_st, r_nm, r_em, r_ph, r_ca, r_none, r_some⟩ :=
          patchReason_ok (patchPhone a3 p.phone) p.reason a h
        have hid : a.id = a0.id := by rw [r_id, p_id, e_id, n_id, s_id]
        have hca : a.created_at = a0.created_at := by
          rw [r_ca, p_ca, e_ca, n_ca, s_ca]
        have hst1 : a.start_time = a1.start_time := by
          rw [r_st, p_st, e_st, n_st]
        refine ⟨hid, hca, ?_, ?_, ?_, ?_, ?_, ?_, ?_, ?_, ?_, ?_, ?_⟩
        · intro hnone
          rw [hst1]
          exact s_none hnone
        · rw [hst1]
          exact s_dis
        · intro hnone
          rw [r_nm, p_nm, e_nm, n_none hnone, s_nm]
        · intro n hn
          rw [r_nm, p_nm, e_nm, n_some n hn]
        · intro hnone
          rw [r_em, p_em, e_none hnone, n_em, s_em]
        · intro m hm
          rw [r_em, p_em, e_some m hm]
        · intro hnone
          rw [r_ph, p_none hnone, e_ph, n_ph, s_ph]
        · intro ph hph
          rw [r_ph, p_some ph hph]
        · intro hnone
          rw [r_none hnone, p_rs, e_rs, n_rs, s_rs]
        · intro r hr
          rw [r_some r hr]
        · intro raw hraw
          rw [hst1]
          exact s_some raw hraw

theorem patch_cases (tz now : Int) (st : List Appointment)
    (appointment_id : Nat) (p : PatchPayload) :
    (∃ e, AppointmentDetailView.patch tz now st appointment_id p
        = (st, .failure e)) ∨
    (∃ a0 a, AppointmentDetailView.get_object st appointment_id = some a0 ∧
      applyPatch tz now st a0 p = .ok a ∧
      AppointmentDetailView.patch tz now st appointment_id p =
        (st.map (fun b => if b.id == a0.id then a else b),
          .updated (serialize_appointment tz a))) := by
  unfold AppointmentDetailView.patch
  cases hobj : AppointmentDetailView.get_object st appointment_id with
  | none => exact .inl ⟨_, rfl⟩
  | some a0 =>
    dsimp only
    split_ifs with hu
    · exact .inl ⟨_, rfl⟩
    · cases happ : applyPatch tz now st a0 p with
      | error e => exact .inl ⟨e, rfl⟩
      | ok a => exact .inr ⟨a0, a, rfl, happ, rfl⟩

theorem unique_ids_eq (st : List Appointment) (h : uniqueIds st)
    (x y : Appointment) (hx : x ∈ st) (hy : y ∈ st) (hxy : x.id = y.id) :
    x = y := by
  induction st with
  | nil => cases hx
  | cons c l ih =>
    have hhead := (List.pairwise_cons.mp h).1
    have htail := (List.pairwise_cons.mp h).2
    rcases List.mem_cons.mp hx with rfl | hx'
    · rcases List.mem_cons.mp hy with rfl | hy'
      · rfl
      · exact absurd hxy (hhead y hy')
    · rcases List.mem_cons.mp hy with rfl | hy'
      · exact absurd hxy.symm (hhead x hx')
      · exact ih htail hx' hy'

theorem replace_keeps_id (a0 a : Appointment) (haid : a.id = a0.id)
    (b : Appointment) :
    (if b.id == a0.id then a else b).id = b.id := by
  by_cases hb : b.id = a0.id
  · simp [hb, haid]
  · simp [hb]

theorem reachable_unique (st : List Appointment) (h : Reachable st) :
    uniqueIds st ∧ uniqueStart st := by
  induction h with
  | empty => exact ⟨List.Pairwise.nil, List.Pairwise.nil⟩
  | create st tz now newId createdAt p hfresh h ih =>
    rcases post_cases tz now st newId createdAt p with ⟨e, hpost⟩ |
      ⟨a, haid, hstf, hpost⟩
    · rw [hpost]; exact ih
    · rw [hpost]
      obtain ⟨ihi, ihs⟩ := ih
      constructor
      · rw [uniqueIds, List.pairwise_append]
        refine ⟨ihi, List.pairwise_singleton _ _, ?_⟩
        intro b hb c hc
        rw [List.mem_singleton] at hc
        subst hc
        rw [haid]
        exact hfresh b hb
      · rw [uniqueStart, List.pairwise_append]
        refine ⟨ihs, List.pairwise_singleton _ _, ?_⟩
        intro b hb c hc
        rw [List.mem_singleton] at hc
        subst hc
        exact hstf b hb
  | update st tz now appointment_id p h ih =>
    rcases patch_cases tz now st appointment_id p with ⟨e, hpost⟩ |
      ⟨a0, a, hobj, happ, hpost⟩
    · rw [hpost]; exact ih
    · rw [hpost]
      obtain ⟨ihi, ihs⟩ := ih
      have ha0 : a0 ∈ st := List.mem_of_find?_eq_some hobj
      obtain ⟨haid, -, -, hsd, -⟩ := applyPatch_ok tz now st a0 p a happ
      have hbeq : ∀ b ∈ st, b.id = a0.id → b = a0 := fun b hb hid =>
        unique_ids_eq st ihi b a0 hb ha0 hid
      constructor
      · rw [uniqueIds, List.pairwise_map]
        refine ihi.imp_of_mem ?_
        intro b c _ _ hbc
        rw [replace_keeps_id a0 a haid b, replace_keeps_id a0 a haid c]
        exact hbc
      · rw [uniqueStart, List.pairwise_map]
        have hrep : ∀ x : Appointment, x.id = a0.id →
            (if x.id == a0.id then a else x) = a := by
          intro x hx
          simp [hx]
        have hrep' : ∀ x : Appointment, ¬ x.id = a0.id →
            (if x.id == a0.id then a else x) = x := by
          intro x hx
          simp [hx]
        refine (ihi.and ihs).imp_of_mem ?_
        intro b c hb hc hbc
        obtain ⟨hbcid, hbcst⟩ := hbc
        by_cases hbid : b.id = a0.id
        · have hb0 : b = a0 := hbeq b hb hbid
          have hcid : ¬ c.id = a0.id := fun hcid =>
            hbcid (hbid.trans hcid.symm)
          rw [hrep b hbid, hrep' c hcid]
          rcases hsd with hsame | hother
          · rw [hsame, ← hb0]
            exact hbcst
          · intro heq
            exact hother c hc hcid heq.symm
        · by_cases hcid : c.id = a0.id
          · have hc0 : c = a0 := hbeq c hc hcid
            rw [hrep' b hbid, hrep c hcid]
            rcases hsd with hsame | hother
            · rw [hsame, ← hc0]
              exact hbcst
            · exact hother b hb hbid
          · rw [hrep' b hbid, hrep' c hcid]
            exact hbcst
  | del st appointment_id h ih =>
    unfold AppointmentDetailView.delete
    cases hobj : AppointmentDetailView.get_object st appointment_id with
    | none => exact ih
    | some a0 =>
      dsimp only
      exact ⟨List.Pairwise.sublist (List.filter_sublist st) ih.1,
        List.Pairwise.sublist (List.filter_sublist st) ih.2⟩

theorem applyPatch_error_start (tz now : Int) (st : List Appointment)
    (a0 : Appointment) (p : PatchPayload) (e : ApiError)
    (h : patchStart tz now st a0 p.start_time = .error e) :
    applyPatch tz now st a0 p = .error e := by
  unfold applyPatch
  rw [h]
  rfl

theorem applyPatch_error_name (tz now : Int) (st : List Appointment)
    (a0 : Appointment) (p : PatchPayload) (a1 : Appointment) (e : ApiError)
    (h1 : patchStart tz now st a0 p.start_time = .ok a1)
    (h2 : patchName a1 p.name = .error e) :
    applyPatch tz now st a0 p = .error e := by
  unfold applyPatch
  rw [h1]
  show patchName a1 p.name >>= _ = _
  rw [h2]
  rfl

theorem applyPatch_error_email (tz now : Int) (st : List Appointment)
    (a0 : Appointment) (p : PatchPayload) (a1 a2 : Appointment) (e : ApiError)
    (h1 : patchStart tz now st a0 p.start_time = .ok a1)
    (h2 : patchName a1 p.name = .ok a2)
    (h3 : patchEmail a2 p.email = .error e) :
    applyPatch tz now st a0 p = .error e := by
  unfold applyPatch
  rw [h1]
  show patchName a1 p.name >>= _ = _
  rw [h2]
  show patchEmail a2 p.email >>= _ = _
  rw [h3]
  rfl

theorem applyPatch_error_reason (tz now : Int) (st : List Appointment)
    (a0 : Appointment) (p : PatchPayload) (a1 a2 a3 : Appointment)
    (e : ApiError)
    (h1 : patchStart tz now st a0 p.start_time = .ok a1)
    (h2 : patchName a1 p.name = .ok a2)
    (h3 : patchEmail a2 p.email = .ok a3)
    (h4 : patchReason (patchPhone a3 p.phone) p.reason = .error e) :
    applyPatch tz now st a0 p = .error e := by
  unfold applyPatch
  rw [h1]
  show patchName a1 p.name >>= _ = _
  rw [h2]
  show patchEmail a2 p.email >>= _ = _
  rw [h3]
  show patchReason (patchPhone a3 p.phone) p.reason = _
  rw [h4]

theorem patch_of_applyPatch_error (tz now : Int) (st : List Appointment)
    (appointment_id : Nat) (p : PatchPayload) (a0 : Appointment)
    (e : ApiError)
    (hobj : AppointmentDetailView.get_object st appointment_id = some a0)
    (hunk : p.unknownKeys = [])
    (happ : applyPatch tz now st a0 p = .error e) :
    AppointmentDetailView.patch tz now st appointment_id p
      = (st, .failure e) := by
  simp [AppointmentDetailView.patch, hobj, hunk, happ]

/-- C1: every state reachable through create, update, and delete keeps
`start_time` unique; a fully validated create aimed at a `start_time`
already held fails with SlotConflict leaving the store unchanged; a
reschedule via PATCH onto another appointment's `start_time` fails with
SlotConflict leaving the store unchanged; and of two validated creates at
the identical `start_time`, the first succeeds and the second gets
SlotConflict. -/
theorem create_update_delete_keep_start_unique :
    (∀ st, Reachable st → uniqueStart st) ∧
    (∀ tz now : Int, ∀ st : List Appointment, ∀ newId : Nat,
      ∀ createdAt : Int, ∀ p : CreatePayload, ∀ raw : TsText, ∀ t : Int,
      p.start_time = some raw →
      falsyTs p.start_time = false →
      (strip (p.name.getD "")).isEmpty = false →
      (strip (p.email.getD "")).isEmpty = false →
      validate_email (strip (p.email.getD "")) = true →
      (strip (p.reason.getD "")).length ≤ 200 →
      parse_start_time tz raw = .ok t →
      validate_slot now t = none →
      (∃ b ∈ st, b.start_time = t) →
      AppointmentCollectionView.post tz now st newId createdAt p
        = (st, .failure .slotConflict)) ∧
    (∀ tz now : Int, ∀ st : List Appointment, ∀ appointment_id : Nat,
      ∀ p : PatchPayload, ∀ a0 : Appointment, ∀ raw : TsText, ∀ t : Int,
      AppointmentDetailView.get_object st appointment_id = some a0 →
      p.unknownKeys = [] →
      p.start_time = some raw →
      parse_start_time tz raw = .ok t →
      validate_slot now t = none →
      (∃ b ∈ st, b.id ≠ a0.id ∧ b.start_time = t) →
      AppointmentDetailView.patch tz now st appointment_id p
        = (st, .failure .slotConflict)) ∧
    (∀ tz now : Int, ∀ st : List Appointment, ∀ newId newId2 : Nat,
      ∀ createdAt createdAt2 : Int, ∀ p p2 : CreatePayload,
      ∀ raw raw2 : TsText, ∀ t : Int,
      p.start_time = some raw →
      falsyTs p.start_time = false →
      (strip (p.name.getD "")).isEmpty = false →
      (strip (p.email.getD "")).isEmpty = false →
      validate_email (strip (p.email.getD "")) = true →
      (strip (p.reason.getD "")).length ≤ 200 →
      parse_start_time tz raw = .ok t →
      validate_slot now t = none →
      (∀ b ∈ st, b.start_time ≠ t) →
      p2.start_time = some raw2 →
      falsyTs p2.start_time = false →
      (strip (p2.name.getD "")).isEmpty = false →
      (strip (p2.email.getD "")).isEmpty = false →
      validate_email (strip (p2.email.getD "")) = true →
      (strip (p2.reason.getD "")).length ≤ 200 →
      parse_start_time tz raw2 = .ok t →
      ∃ a : Appointment, a.start_time = t ∧
        AppointmentCollectionView.post tz now st newId createdAt p
          = (st ++ [a], .created (serialize_appointment tz a)) ∧
        AppointmentCollectionView.post tz now (st ++ [a]) newId2 createdAt2 p2
          = (st ++ [a], .failure .slotConflict)) := by
  refine ⟨fun st h => (reachable_unique st h).2, ?_, ?_, ?_⟩
  · intro tz now st newId createdAt p raw t hraw hfal hn he hv hr hp hvs hex
    have hlen : ¬ 200 < (strip (p.reason.getD "")).length := by omega
    have hany : (st.any fun b => b.start_time == t) = true := by
      simp only [List.any_eq_true, beq_iff_eq]
      exact hex
    rw [hraw] at hfal
    simp [AppointmentCollectionView.post, hfal, hn, he, hv, hlen, hraw, hp,
      hvs, hany]
  · intro tz now st appointment_id p a0 raw t hobj hunk hraw hp hvs hex
    have hany : (st.any fun b => b.start_time == t && b.id != a0.id)
        = true := by
      simp only [List.any_eq_true, Bool.and_eq_true, beq_iff_eq, bne_iff_ne]
      obtain ⟨b, hb, hbid, hbt⟩ := hex
      exact ⟨b, hb, hbt, hbid⟩
    have hps : patchStart tz now st a0 p.start_time
        = .error .slotConflict := by
      rw [hraw]
      simp [patchStart, hp, hvs, hany]
    exact patch_of_applyPatch_error tz now st appointment_id p a0 _ hobj hunk
      (applyPatch_error_start tz now st a0 p _ hps)
  · intro tz now st newId newId2 createdAt createdAt2 p p2 raw raw2 t
      hraw hfal hn he hv hr hp hvs hfree
      hraw2 hfal2 hn2 he2 hv2 hr2 hp2
    have hlen : ¬ 200 < (strip (p.reason.getD "")).length := by omega
    have hlen2 : ¬ 200 < (strip (p2.reason.getD "")).length := by omega
    have hany : (st.any fun b => b.start_time == t) = false := by
      simp only [List.any_eq_false, beq_iff_eq]
      exact hfree
    rw [hraw] at hfal
    rw [hraw2] at hfal2
    refine ⟨⟨newId, t, strip (p.name.getD ""), strip (p.email.getD ""),
      strip (p.phone.getD ""), strip (p.reason.getD ""), createdAt⟩,
      rfl, ?_, ?_⟩
    · simp [AppointmentCollectionView.post, hfal, hn, he, hv, hlen, hraw,
        hp, hvs, hany]
    · have hany2 : ((st ++ [(⟨newId, t, strip (p.name.getD ""),
          strip (p.email.getD ""), strip (p.phone.getD ""),
          strip (p.reason.getD ""), createdAt⟩ : Appointment)]).any
          fun b => b.start_time == t) = true := by
        rw [List.any_append]
        simp
      simp [AppointmentCollectionView.post, hfal2, hn2, he2, hv2, hlen2,
        hraw2, hp2, hvs, hany2]

/-- C1 witness: on the empty store, a create at the Monday 09:00 slot of
week 0 succeeds, and an identical second create gets SlotConflict with the
store unchanged. -/
theorem create_update_delete_keep_start_unique_witness :
    ∃ a : Appointment, a.start_time = 540 ∧
      AppointmentCollectionView.post 0 0 [] 1 0
          ⟨some ⟨false, some ⟨540, some 0⟩⟩, some "A", some "a@x.com",
            none, none⟩
        = ([] ++ [a], .created (serialize_appointment 0 a)) ∧
      AppointmentCollectionView.post 0 0 ([] ++ [a]) 2 1
          ⟨some ⟨false, some ⟨540, some 0⟩⟩, some "A", some "a@x.com",
            none, none⟩
        = ([] ++ [a], .failure .slotConflict) :=
  create_update_delete_keep_start_unique.2.2.2 0 0 [] 1 2 0 1
    ⟨some ⟨false, some ⟨540, some 0⟩⟩, some "A", some "a@x.com", none, none⟩
    ⟨some ⟨false, some ⟨540, some 0⟩⟩, some "A", some "a@x.com", none, none⟩
    ⟨false, some ⟨540, some 0⟩⟩ ⟨false, some ⟨540, some 0⟩⟩ 540
    rfl (by decide) (by decide) (by decide) (by decide) (by decide)
    rfl (by decide) (by simp)
    rfl (by decide) (by decide) (by decide) (by decide) (by decide)
    rfl

/-- C5: PATCH is atomic — on any error the stored table is unchanged and
on success every supplied field's new value is persisted in the same call —
and the error surfaced is the first failure in the order start_time
(malformed, slot-invalid, conflict), name, email, phone (never fails),
reason. -/
theorem patch_atomic_first_error :
    (∀ tz now : Int, ∀ st : List Appointment, ∀ appointment_id : Nat,
      ∀ p : PatchPayload, ∀ e : ApiError,
      (AppointmentDetailView.patch tz now st appointment_id p).2
          = .failure e →
      (AppointmentDetailView.patch tz now st appointment_id p).1 = st) ∧
    (∀ tz now : Int, ∀ st : List Appointment, ∀ appointment_id : Nat,
      ∀ p : PatchPayload, ∀ s : SerializedAppointment,
      (AppointmentDetailView.patch tz now st appointment_id p).2
          = .updated s →
      ∃ a0 a : Appointment,
        AppointmentDetailView.get_object st appointment_id = some a0 ∧
        a ∈ (AppointmentDetailView.patch tz now st appointment_id p).1 ∧
        a.id = a0.id ∧ a.created_at = a0.created_at ∧
        (∀ raw, p.start_time = some raw →
          parse_start_time tz raw = .ok a.start_time) ∧
        (∀ n, p.name = some n → a.name = strip n) ∧
        (∀ m, p.email = some m → a.email = strip m) ∧
        (∀ ph, p.phone = some ph → a.phone = strip ph) ∧
        (∀ r, p.reason = some r → a.reason = strip r)) ∧
    (∀ tz now : Int, ∀ st : List Appointment, ∀ appointment_id : Nat,
      ∀ p : PatchPayload, ∀ a0 : Appointment,
      AppointmentDetailView.get_object st appointment_id = some a0 →
      p.unknownKeys = [] →
      (∀ raw, p.start_time = some raw → parse_datetime raw = none →
        (AppointmentDetailView.patch tz now st appointment_id p).2
          = .failure .malformedTimestamp) ∧
      (∀ raw t e, p.start_time = some raw →
        parse_start_time tz raw = .ok t → validate_slot now t = some e →
        (AppointmentDetailView.patch tz now st appointment_id p).2
          = .failure e) ∧
      (∀ raw t, p.start_time = some raw → parse_start_time tz raw = .ok t →
        validate_slot now t = none →
        (∃ b ∈ st, b.id ≠ a0.id ∧ b.start_time = t) →
        (AppointmentDetailView.patch tz now st appointment_id p).2
          = .failure .slotConflict) ∧
      (∀ a1 n, patchStart tz now st a0 p.start_time = .ok a1 →
        p.name = some n → (strip n).isEmpty = true →
        (AppointmentDetailView.patch tz now st appointment_id p).2
          = .failure .blankName) ∧
      (∀ a1 a2 m, patchStart tz now st a0 p.start_time = .ok a1 →
        patchName a1 p.name = .ok a2 → p.email = some m →
        (strip m).isEmpty = true →
        (AppointmentDetailView.patch tz now st appointment_id p).2
          = .failure .blankEmail) ∧
      (∀ a1 a2 m, patchStart tz now st a0 p.start_time = .ok a1 →
        patchName a1 p.name = .ok a2 → p.email = some m →
        (strip m).isEmpty = false → validate_email (strip m) = false →
        (AppointmentDetailView.patch tz now st appointment_id p).2
          = .failure .invalidEmail) ∧
      (∀ a1 a2 a3 r, patchStart tz now st a0 p.start_time = .ok a1 →
        patchName a1 p.name = .ok a2 → patchEmail a2 p.email = .ok a3 →
        p.reason = some r → 200 < (strip r).length →
        (AppointmentDetailView.patch tz now st appointment_id p).2
          = .failure .reasonTooLong)) := by
  refine ⟨?_, ?_, ?_⟩
  · intro tz now st appointment_id p e hfail
    rcases patch_cases tz now st appointment_id p with ⟨e', hpost⟩ |
      ⟨a0, a, hobj, happ, hpost⟩
    · rw [hpost]
    · rw [hpost] at hfail
      simp at hfail
  · intro tz now st appointment_id p s hupd
    rcases patch_cases tz now st appointment_id p with ⟨e', hpost⟩ |
      ⟨a0, a, hobj, happ, hpost⟩
    · rw [hpost] at hupd
      simp at hupd
    · obtain ⟨hid, hca, -, -, -, n_some, -, e_some, -, p_some, -, r_some,
        s_some⟩ := applyPatch_ok tz now st a0 p a happ
      refine ⟨a0, a, hobj, ?_, hid, hca, ?_, n_some, e_some, p_some, r_some⟩
      · rw [hpost]
        exact List.mem_map.mpr ⟨a0, List.mem_of_find?_eq_some hobj, by simp⟩
      · intro raw hraw
        exact (s_some raw hraw).1
  · intro tz now st appointment_id p a0 hobj hunk
    refine ⟨?_, ?_, ?_, ?_, ?_, ?_, ?_⟩
    · intro raw hraw hpar
      have hpar' : raw.parsed = none := hpar
      have hps : patchStart tz now st a0 p.start_time
          = .error .malformedTimestamp := by
        rw [hraw]
        simp [patchStart, parse_start_time, parse_datetime, hpar']
      rw [patch_of_applyPatch_error tz now st appointment_id p a0 _ hobj hunk
        (applyPatch_error_start tz now st a0 p _ hps)]
    · intro raw t e hraw hp hv
      have hps : patchStart tz now st a0 p.start_time = .error e := by
        rw [hraw]
        simp [patchStart, hp, hv]
      rw [patch_of_applyPatch_error tz now st appointment_id p a0 _ hobj hunk
        (applyPatch_error_start tz now st a0 p _ hps)]
    · intro raw t hraw hp hv hex
      have hany : (st.any fun b => b.start_time == t && b.id != a0.id)
          = true := by
        simp only [List.any_eq_true, Bool.and_eq_true, beq_iff_eq,
          bne_iff_ne]
        obtain ⟨b, hb, hbid, hbt⟩ := hex
        exact ⟨b, hb, hbt, hbid⟩
      have hps : patchStart tz now st a0 p.start_time
          = .error .slotConflict := by
        rw [hraw]
        simp [patchStart, hp, hv, hany]
      rw [patch_of_applyPatch_error tz now st appointment_id p a0 _ hobj hunk
        (applyPatch_error_start tz now st a0 p _ hps)]
    · intro a1 n h1 hn hblank
      have h2 : patchName a1 p.name = .error .blankName := by
        rw [hn]
        simp [patchName, hblank]
      rw [patch_of_applyPatch_error tz now st appointment_id p a0 _ hobj hunk
        (applyPatch_error_name tz now st a0 p a1 _ h1 h2)]
    · intro a1 a2 m h1 h2 hm hblank
      have h3 : patchEmail a2 p.email = .error .blankEmail := by
        rw [hm]
        simp [patchEmail, hblank]
      rw [patch_of_applyPatch_error tz now st appointment_id p a0 _ hobj hunk
        (applyPatch_error_email tz now st a0 p a1 a2 _ h1 h2 h3)]
    · intro a1 a2 m h1 h2 hm hne hvm
      have h3 : patchEmail a2 p.email = .error .invalidEmail := by
        rw [hm]
        simp [patchEmail, hne, hvm]
      rw [patch_of_applyPatch_error tz now st appointment_id p a0 _ hobj hunk
        (applyPatch_error_email tz now st a0 p a1 a2 _ h1 h2 h3)]
    · intro a1 a2 a3 r h1 h2 h3 hr hlen
      have h4 : patchReason (patchPhone a3 p.phone) p.reason
          = .error .reasonTooLong := by
        rw [hr]
        simp [patchReason, hlen]
      rw [patch_of_applyPatch_error tz now st appointment_id p a0 _ hobj hunk
        (applyPatch_error_reason tz now st a0 p a1 a2 a3 _ h1 h2 h3 h4)]

/-- C5 witness: patching a stored appointment with a whitespace-only name
fails with BlankName and leaves the store unchanged. -/
theorem patch_atomic_first_error_witness :
    (AppointmentDetailView.patch 0 0 [⟨1, 540, "A", "a@x.com", "", "", 0⟩] 1
        ⟨none, some " ", none, none, none, []⟩).2 = .failure .blankName ∧
    (AppointmentDetailView.patch 0 0 [⟨1, 540, "A", "a@x.com", "", "", 0⟩] 1
        ⟨none, some " ", none, none, none, []⟩).1
      = [⟨1, 540, "A", "a@x.com", "", "", 0⟩] := by
  have h := patch_atomic_first_error
  have hobj : AppointmentDetailView.get_object
      [(⟨1, 540, "A", "a@x.com", "", "", 0⟩ : Appointment)] 1
      = some ⟨1, 540, "A", "a@x.com", "", "", 0⟩ := by decide
  have hblank := (h.2.2 0 0 [⟨1, 540, "A", "a@x.com", "", "", 0⟩] 1
    ⟨none, some " ", none, none, none, []⟩ ⟨1, 540, "A", "a@x.com", "", "", 0⟩
    hobj rfl).2.2.2.1 ⟨1, 540, "A", "a@x.com", "", "", 0⟩ " " rfl rfl
    (by decide)
  exact ⟨hblank, h.1 0 0 _ 1 _ _ hblank⟩

/-- C10: a successful PATCH persists the replacement record with `id` and
`created_at` unchanged and every absent field keeping its stored value; a
PATCH whose payload carries none of the five keys (and no unknown key)
returns 200 and leaves the stored table unchanged. -/
theorem patch_frame_property :
    (∀ tz now : Int, ∀ st : List Appointment, ∀ appointment_id : Nat,
      ∀ a0 : Appointment,
      uniqueIds st →
      AppointmentDetailView.get_object st appointment_id = some a0 →
      AppointmentDetailView.patch tz now st appointment_id
          ⟨none, none, none, none, none, []⟩
        = (st, .updated (serialize_appointment tz a0))) ∧
    (∀ tz now : Int, ∀ st : List Appointment, ∀ appointment_id : Nat,
      ∀ p : PatchPayload, ∀ a0 a : Appointment,
      AppointmentDetailView.get_object st appointment_id = some a0 →
      p.unknownKeys = [] →
      applyPatch tz now st a0 p = .ok a →
      AppointmentDetailView.patch tz now st appointment_id p
          = (st.map (fun b => if b.id == a0.id then a else b),
            .updated (serialize_appointment tz a)) ∧
      a.id = a0.id ∧ a.created_at = a0.created_at ∧
      (p.start_time = none → a.start_time = a0.start_time) ∧
      (p.name = none → a.name = a0.name) ∧
      (p.email = none → a.email = a0.email) ∧
      (p.phone = none → a.phone = a0.phone) ∧
      (p.reason = none → a.reason = a0.reason)) := by
  constructor
  · intro tz now st appointment_id a0 hids hobj
    have happ : applyPatch tz now st a0 ⟨none, none, none, none, none, []⟩
        = .ok a0 := rfl
    have ha0 := List.mem_of_find?_eq_some hobj
    have hmap : st.map (fun b => if b.id = a0.id then a0 else b) = st := by
      conv_rhs => rw [← List.map_id st]
      apply List.map_congr_left
      intro b hb
      by_cases hbid : b.id = a0.id
      · rw [if_pos hbid]
        exact (unique_ids_eq st hids b a0 hb ha0 hbid).symm
      · rw [if_neg hbid]
        rfl
    simp [AppointmentDetailView.patch, hobj, happ, hmap]
  · intro tz now st appointment_id p a0 a hobj hunk happ
    obtain ⟨hid, hca, s_none, -, n_none, -, e_none, -, p_none, -, r_none,
      -, -⟩ := applyPatch_ok tz now st a0 p a happ
    refine ⟨?_, hid, hca, s_none, n_none, e_none, p_none, r_none⟩
    simp [AppointmentDetailView.patch, hobj, hunk, happ]

/-- C10 witness: an empty PATCH of a stored appointment returns it
unchanged and leaves the store as it was. -/
theorem patch_frame_property_witness :
    AppointmentDetailView.patch 0 0 [⟨1, 540, "A", "a@x.com", "", "", 0⟩] 1
        ⟨none, none, none, none, none, []⟩
      = ([⟨1, 540, "A", "a@x.com", "", "", 0⟩],
        .updated (serialize_appointment 0 ⟨1, 540, "A", "a@x.com", "", "", 0⟩)) :=
  patch_frame_property.1 0 0 [⟨1, 540, "A", "a@x.com", "", "", 0⟩] 1
    ⟨1, 540, "A", "a@x.com", "", "", 0⟩ (by simp [uniqueIds]) (by decide)

/-- C7 counterexample: a whitespace-only `start_time` (a nonempty string
`parse_datetime` rejects) with a valid name and email does not fail with
MissingField: the POST handler's falsiness check passes the untrimmed
string, and the request fails later, at parsing, with MalformedTimestamp. -/
theorem create_whitespace_start_counterexample :
    AppointmentCollectionView.post 0 0 [] 1 0
        ⟨some ⟨false, none⟩, some "A", some "a@x.com", none, none⟩
      = ([], .failure .malformedTimestamp) ∧
    ApiError.malformedTimestamp ≠ ApiError.missingField := by
  exact ⟨by decide, by decide⟩

/-- C7 (amended): create fails with MissingField — storing nothing —
exactly when `start_time` is absent or the empty string, or `name` or
`email` is empty after trimming (whitespace-only included); a
whitespace-only `start_time` is not caught there: with the other checks
passing it reaches parsing and fails with MalformedTimestamp, again
storing nothing. -/
theorem create_missing_field_characterization (tz now : Int)
    (st : List Appointment) (newId : Nat) (createdAt : Int)
    (p : CreatePayload) :
    ((AppointmentCollectionView.post tz now st newId createdAt p).2
        = .failure .missingField ↔
      (falsyTs p.start_time || (strip (p.name.getD "")).isEmpty
        || (strip (p.email.getD "")).isEmpty) = true) ∧
    ((AppointmentCollectionView.post tz now st newId createdAt p).2
        = .failure .missingField →
      (AppointmentCollectionView.post tz now st newId createdAt p).1 = st) ∧
    (∀ raw : TsText, p.start_time = some raw → raw.isEmpty = false →
      parse_datetime raw = none →
      (strip (p.name.getD "")).isEmpty = false →
      (strip (p.email.getD "")).isEmpty = false →
      validate_email (strip (p.email.getD "")) = true →
      (strip (p.reason.getD "")).length ≤ 200 →
      (AppointmentCollectionView.post tz now st newId createdAt p)
        = (st, .failure .malformedTimestamp)) := by
  refine ⟨?_, ?_, ?_⟩
  · by_cases h1 : (falsyTs p.start_time || (strip (p.name.getD "")).isEmpty
        || (strip (p.email.getD "")).isEmpty) = true
    · simp [AppointmentCollectionView.post, h1]
    · rw [Bool.not_eq_true] at h1
      simp only [AppointmentCollectionView.post, h1, Bool.false_eq_true,
        if_false, iff_false]
      intro hcontra
      revert hcontra
      split_ifs with h2 h3
      · simp
      · simp
      · cases hp : parse_start_time tz (p.start_time.getD ⟨true, none⟩) with
        | error e =>
          dsimp only
          intro hcontra
          have hme := parse_start_time_error_eq tz _ e hp
          rw [hme] at hcontra
          simp at hcontra
        | ok t =>
          dsimp only
          cases hv : validate_slot now t with
          | some e =>
            dsimp only
            intro hcontra
            rcases validate_slot_error_cases now t e hv with h | h | h | h <;>
              rw [h] at hcontra <;> simp at hcontra
          | none =>
            dsimp only
            split_ifs with h4 <;> intro hcontra <;> simp at hcontra
  · intro hmiss
    rcases post_cases tz now st newId createdAt p with ⟨e, hpost⟩ |
      ⟨a, _, _, hpost⟩
    · rw [hpost]
    · rw [hpost] at hmiss
      simp at hmiss
  · intro raw hraw hne hpar hn he hv hr
    have hfal : falsyTs p.start_time = false := by rw [hraw]; exact hne
    have hlen : ¬ 200 < (strip (p.reason.getD "")).length := by omega
    have hpar' : raw.parsed = none := hpar
    simp [AppointmentCollectionView.post, hfal, hn, he, hv, hlen, hraw,
      falsyTs, hne, parse_start_time, parse_datetime, hpar']

/-- C7 witness: a create request with every field absent fails with
MissingField and stores nothing. -/
theorem create_missing_field_witness :
    (AppointmentCollectionView.post 0 0 [] 1 0 ⟨none, none, none, none, none⟩).2
        = .failure .missingField ∧
    (AppointmentCollectionView.post 0 0 [] 1 0 ⟨none, none, none, none, none⟩).1
        = [] := by
  have h := create_missing_field_characterization 0 0 [] 1 0
    ⟨none, none, none, none, none⟩
  have h2 := h.1.mpr (by decide)
  exact ⟨h2, h.2.1 h2⟩

/-- C3 counterexample: for the non-Monday `week_start = 2880` (a Wednesday
at 00:00), `generate_business_slots` emits the instant 7740, whose local
weekday is 5 (Saturday), refuting "each with local weekday Monday–Friday"
as stated for every `week_start`. -/
theorem generate_slots_nonmonday_counterexample :
    ¬ ∀ s ∈ generate_business_slots 2880, 0 ≤ weekdayOf s ∧ weekdayOf s < 5 := by
  intro h
  have hmem : (7740 : Int) ∈ generate_business_slots 2880 := by
    rw [generate_business_slots_mem]
    exact ⟨3, by omega, 0, by omega, by decide⟩
  have hwk : weekdayOf (7740 : Int) = 5 := by decide
  have := h 7740 hmem
  omega

/-- C3 (amended): for every `week_start` whose local date is a Monday — as
every `week_range` start is — `generate_business_slots(week_start)` is
exactly the 17 half-hour instants 09:00..17:00 of each of the 5 weekday
offsets 0..4 from `week_start`'s date (85 in total), strictly ascending,
each with local weekday Monday–Friday, local minute 0 or 30, and local time
in [09:00, 17:00]; the 17:00 closing instant of each day is included. -/
theorem generate_slots_monday_characterization (ws : Int)
    (h : weekdayOf ws = 0) :
    generate_business_slots ws =
      (List.range 5).flatMap (fun wd =>
        (List.range 17).map
          (fun i : Nat => (dateOf ws + (wd : Int)) * 1440 + 540 + 30 * (i : Int))) ∧
    (generate_business_slots ws).length = 85 ∧
    List.Pairwise (· < ·) (generate_business_slots ws) ∧
    (∀ s ∈ generate_business_slots ws,
      (0 ≤ weekdayOf s ∧ weekdayOf s < 5) ∧
      (minuteOf s = 0 ∨ minuteOf s = 30) ∧
      540 ≤ timeOfDayOf s ∧ timeOfDayOf s ≤ 1020) ∧
    (∀ wd : Nat, wd < 5 →
      (dateOf ws + (wd : Int)) * 1440 + 1020 ∈ generate_business_slots ws) := by
  refine ⟨generate_business_slots_closed ws, generate_business_slots_length ws,
    generate_business_slots_sorted ws, ?_, ?_⟩
  · intro s hs
    rw [generate_business_slots_mem] at hs
    obtain ⟨wd, hwd, i, hi, rfl⟩ := hs
    unfold weekdayOf dateOf minuteOf timeOfDayOf at *
    omega
  · intro wd hwd
    rw [generate_business_slots_mem]
    exact ⟨wd, hwd, 16, by omega, by push_cast; ring⟩

/-- C3 witness: the Monday week starting at minute 0 yields 85 slots. -/
theorem generate_slots_monday_witness :
    (generate_business_slots 0).length = 85 :=
  (generate_slots_monday_characterization 0 (by decide)).2.1

/-- C2: `validate_slot(t)` succeeds iff `t ≥ now`, the local weekday is
Mon–Fri, the local minute is 0 or 30, the local hour is in [9,17], and not
(hour = 17 and minute ≠ 0); on failure it reports exactly the first failing
check in the order PastSlot, NonBusinessDay, Misaligned, OutsideHours. -/
theorem validate_slot_characterization (now slot : Int) :
    (validate_slot now slot = none ↔
      (now ≤ slot ∧ 0 ≤ weekdayOf slot ∧ weekdayOf slot < 5 ∧
        (minuteOf slot = 0 ∨ minuteOf slot = 30) ∧
        9 ≤ hourOf slot ∧ hourOf slot ≤ 17 ∧
        ¬(hourOf slot = 17 ∧ minuteOf slot ≠ 0))) ∧
    (validate_slot now slot = some .pastSlot ↔ slot < now) ∧
    (validate_slot now slot = some .nonBusinessDay ↔
      (¬ slot < now ∧ ¬(0 ≤ weekdayOf slot ∧ weekdayOf slot < 5))) ∧
    (validate_slot now slot = some .misaligned ↔
      (¬ slot < now ∧ (0 ≤ weekdayOf slot ∧ weekdayOf slot < 5) ∧
        ¬(minuteOf slot = 0 ∨ minuteOf slot = 30))) ∧
    (validate_slot now slot = some .outsideHours ↔
      (¬ slot < now ∧ (0 ≤ weekdayOf slot ∧ weekdayOf slot < 5) ∧
        (minuteOf slot = 0 ∨ minuteOf slot = 30) ∧
        ¬(9 ≤ hourOf slot ∧ hourOf slot ≤ 17 ∧
          ¬(hourOf slot = 17 ∧ minuteOf slot ≠ 0)))) := by
  unfold validate_slot BUSINESS_START_HOUR BUSINESS_END_HOUR
  split_ifs with h1 h2 h3 h4 h5 h6 <;> simp_all

/-- C6: `current_week_range()` starts on Monday of the current local week
at 09:00 and ends on the following Saturday at 00:00; for every integer
offset, `week_range(offset)` shifts the start by whole weeks and recomputes
the end as local midnight of `start.date() + 5 days`; `week_range(0)`
equals `current_week_range()`. -/
theorem week_range_characterization (now offset : Int) :
    (weekdayOf (get_current_week_range now).1 = 0 ∧
      hourOf (get_current_week_range now).1 = 9 ∧
      minuteOf (get_current_week_range now).1 = 0 ∧
      dateOf (get_current_week_range now).1 = dateOf now - weekdayOf now) ∧
    ((get_current_week_range now).2 =
        (dateOf (get_current_week_range now).1 + 5) * 1440 ∧
      weekdayOf (get_current_week_range now).2 = 5 ∧
      timeOfDayOf (get_current_week_range now).2 = 0) ∧
    ((get_week_range now offset).1 =
        (get_current_week_range now).1 + offset * 7 * 1440 ∧
      (get_week_range now offset).2 =
        (dateOf (get_week_range now offset).1 + 5) * 1440) ∧
    get_week_range now 0 = get_current_week_range now := by
  unfold get_week_range get_current_week_range weekdayOf hourOf minuteOf
    timeOfDayOf dateOf BUSINESS_START_HOUR
  by_cases h : offset = 0 <;> simp [h] <;> omega

end Sched
